import Mathlib

/-!
Verification development for the refrapt core (`refrapt/classes.py`).

The Python code is shallowly embedded: each Python operation used by the
claims is translated into an executable Lean definition over `String` /
`List Char` / association lists.  Python exceptions (IndexError, KeyError)
are modelled with `Except`; the on-disk state read by the timestamp passes
is modelled as a map `String → Option Nat` from skel-relative paths to
modification times.  String primitives (`split`, `strip`, `in`, `replace`,
`startswith`) are implemented by structural recursion on the character
list so that every definition evaluates inside the kernel.
-/

namespace Refrapt

deriving instance DecidableEq for Except

/-- Whitespace characters stripped by Python's `str.strip()` and friends. -/
def wsChar (c : Char) : Bool :=
  c = ' ' || c = '\t' || c = '\n' || c = '\r' || c = '\x0b' || c = '\x0c'

/-- `lstarts pre l` is true when the character list `l` begins with `pre`. -/
def lstarts : List Char → List Char → Bool
  | [], _ => true
  | _ :: _, [] => false
  | p :: ps, c :: cs => p = c && lstarts ps cs

/-- Occurrence of the pattern anywhere in the list; models Python's `in`. -/
def occurs (pat : List Char) : List Char → Bool
  | [] => lstarts pat []
  | c :: cs => lstarts pat (c :: cs) || occurs pat cs

/-- Python `sub in s`. -/
def pyIn (sub s : String) : Bool := occurs sub.toList s.toList

/-- Python `s.strip()` (both ends, default whitespace). -/
def pyStrip (s : String) : String :=
  String.mk (((s.toList.dropWhile wsChar).reverse.dropWhile wsChar).reverse)

/-- Python `s.rstrip()`. -/
def pyRStrip (s : String) : String :=
  String.mk ((s.toList.reverse.dropWhile wsChar).reverse)

/-- Python `s.startswith(pre)`. -/
def pyStartsWith (s pre : String) : Bool := lstarts pre.toList s.toList

/-- Python `s.endswith(suf)`. -/
def pyEndsWith (s suf : String) : Bool := lstarts suf.toList.reverse s.toList.reverse

/-- Split a character list at every occurrence of the separator character;
models Python `s.split(sep)` for a one-character separator (all the
separators used by the code are one character long). -/
def splitCh (sep : Char) : List Char → List (List Char)
  | [] => [[]]
  | c :: cs =>
    if c = sep then [] :: splitCh sep cs
    else
      match splitCh sep cs with
      | [] => [[c]]
      | t :: ts => (c :: t) :: ts

/-- Python `s.split(sep)` for a one-character separator. -/
def pySplit (sep : Char) (s : String) : List String :=
  (splitCh sep s.toList).map String.mk

/-- Fuel-indexed worker for `replaceAll`; the fuel starts at the length of
the list and decreases by one at every step, so the recursion is
structural and kernel-reducible. -/
def replAux (pat rep : List Char) : Nat → List Char → List Char
  | _, [] => []
  | 0, l => l
  | fuel + 1, c :: cs =>
    if pat ≠ [] ∧ lstarts pat (c :: cs) then
      rep ++ replAux pat rep fuel (List.drop (pat.length - 1) cs)
    else
      c :: replAux pat rep fuel cs

/-- Python `s.replace(pat, rep)`: left-to-right, non-overlapping. -/
def replaceAll (pat rep s : String) : String :=
  String.mk (replAux pat.toList rep.toList s.toList.length s.toList)

/-- Modelled from the spec: `SanitiseUri` lives in `refrapt.helpers`, which
is not part of the given sources; the spec describes it only as
normalizing "a remote URL into a filesystem-safe relative path".  It is
modelled as stripping the URL scheme prefix. -/
def SanitiseUri (uri : String) : String :=
  if pyStartsWith uri "http://" then String.mk (uri.toList.drop 7)
  else if pyStartsWith uri "https://" then String.mk (uri.toList.drop 8)
  else if pyStartsWith uri "ftp://" then String.mk (uri.toList.drop 6)
  else uri

/-- Stem component of Python `os.path.splitext(p)` (posix rules): split at
the last `'.'` that comes after the last `'/'`, unless every character
between the start of the basename and that dot is itself a dot. -/
def splitextStem (p : String) : String :=
  let l := p.toList
  let sepIdx : Option Nat := ((l.enum.filter (fun ic => ic.2 = '/')).getLast?).map (fun ic => ic.1)
  let dotIdx : Option Nat := ((l.enum.filter (fun ic => ic.2 = '.')).getLast?).map (fun ic => ic.1)
  match dotIdx with
  | none => p
  | some d =>
    let sInt : Int := match sepIdx with | none => -1 | some i => (i : Int)
    let s : Nat := match sepIdx with | none => 0 | some i => i + 1
    if (d : Int) > sInt ∧ ((l.drop s).take (d - s)).any (fun c => c ≠ '.') then
      String.mk (l.take d)
    else p

/-- Update-or-append on an association list; models assignment into a
Python `dict` (existing keys keep their position, new keys go at the end). -/
def upsert {α : Type} (k : String) (v : α) : List (String × α) → List (String × α)
  | [] => [(k, v)]
  | p :: rest => if p.1 = k then (k, v) :: rest else p :: upsert k v rest

/-- The per-file timestamp record (`Timestamp` in `classes.py`); both
fields are initialised to `0.0` by the constructor.  Modification times
are modelled as `Nat`. -/
structure Timestamp where
  current : Nat
  download : Nat
  deriving DecidableEq, Repr

/-- `Timestamp.Modified`: `self._currentTimestamp != self._downloadedTimestamp`. -/
def Timestamp.Modified (t : Timestamp) : Bool := t.current != t.download

/-- The three-level structure of `IndexCollection`:
component → architecture → sanitised file path → `Timestamp`, each level an
insertion-ordered association list (modelling the Python dicts). -/
abbrev IndexCollection := List (String × List (String × List (String × Timestamp)))

/-- One step of the `IndexCollection.__init__` loop:
`self._indexCollection[component][architecture] = dict()` (the outer access
creates the component entry on a miss, defaultdict-style). -/
def icDeclare (ic : IndexCollection) (component architecture : String) : IndexCollection :=
  upsert component (upsert architecture [] ((ic.lookup component).getD [])) ic

/-- `IndexCollection.__init__`: declare an empty file dict for every
(component, architecture) pair. -/
def IndexCollection.init (components architectures : List String) : IndexCollection :=
  components.foldl (fun ic component =>
    architectures.foldl (fun ic2 architecture => icDeclare ic2 component architecture) ic) []

/-- `IndexCollection.Add`: `self._indexCollection[component][architecture][SanitiseUri(file)] = Timestamp()`;
the two outer accesses create missing levels defaultdict-style. -/
def IndexCollection.Add (ic : IndexCollection) (component architecture file : String) : IndexCollection :=
  let am := (ic.lookup component).getD []
  let fm := (am.lookup architecture).getD []
  upsert component (upsert architecture (upsert (SanitiseUri file) ⟨0, 0⟩ fm) am) ic

/-- The per-file effect of `DetermineCurrentTimestamps`: if the file
exists on disk, its modification time becomes `Current`.  The code checks
existence of `<skel>/<file>` and reads the mtime of
`<skel>/<SanitiseUri(file)>`; both are modelled through `fs`, with the
(in practice impossible) case of the doubly-sanitised path being absent
mapped to mtime 0. -/
def currentStamp (fs : String → Option Nat) (ft : String × Timestamp) : String × Timestamp :=
  (ft.1, if (fs ft.1).isSome then { ft.2 with current := (fs (SanitiseUri ft.1)).getD 0 } else ft.2)

/-- `IndexCollection.DetermineCurrentTimestamps`: apply `currentStamp` to
every registered file. -/
def IndexCollection.DetermineCurrentTimestamps (fs : String → Option Nat)
    (ic : IndexCollection) : IndexCollection :=
  ic.map (fun ca => (ca.1, ca.2.map (fun af => (af.1, af.2.map (currentStamp fs)))))

/-- The per-file effect of `DetermineDownloadTimestamps`: files still on
disk get the post-download mtime as `Download`; absent files are dropped. -/
def downloadStamp (fs : String → Option Nat) (ft : String × Timestamp) :
    Option (String × Timestamp) :=
  if (fs ft.1).isSome then
    some (ft.1, { ft.2 with download := (fs (SanitiseUri ft.1)).getD 0 })
  else none

/-- `IndexCollection.DetermineDownloadTimestamps`: record the post-download
mtime as `Download` for files still on disk; files absent after the pass
are collected as removables and deleted from the collection.  Since
deletion is by key, the net effect is the per-entry `filterMap`. -/
def IndexCollection.DetermineDownloadTimestamps (fs : String → Option Nat)
    (ic : IndexCollection) : IndexCollection :=
  ic.map (fun ca => (ca.1, ca.2.map (fun af => (af.1, af.2.filterMap (downloadStamp fs)))))

/-- All (file, timestamp) pairs of the collection, in the order of the
Python triple loop. -/
def IndexCollection.entries (ic : IndexCollection) : List (String × Timestamp) :=
  ic.flatMap (fun ca => ca.2.flatMap (fun af => af.2))

/-- `IndexCollection.Files`: extension-stripped names of the files whose
timestamp is modified, or all files when the force setting is on;
`list(set(...))` is modelled by `dedup` (the claims only use membership). -/
def IndexCollection.Files (force : Bool) (ic : IndexCollection) : List String :=
  ((IndexCollection.entries ic).filterMap (fun ft =>
    if ft.2.Modified || force then some (splitextStem ft.1) else none)).dedup

/-- `IndexCollection.UnmodifiedFiles`: extension-stripped names of the
files whose timestamp is not modified (no force check). -/
def IndexCollection.UnmodifiedFiles (ic : IndexCollection) : List String :=
  ((IndexCollection.entries ic).filterMap (fun ft =>
    if ft.2.Modified then none else some (splitextStem ft.1))).dedup

/-- Whether the (component, architecture) pair has an entry in the
three-level structure (possibly with an empty file map). -/
def IndexCollection.declaredPair (component architecture : String) (ic : IndexCollection) : Bool :=
  (((ic.lookup component)).bind (fun am => am.lookup architecture)).isSome

/-- The operations a caller can perform on an `IndexCollection` after
construction. -/
inductive ICOp where
  | add (component architecture file : String)
  | current (fs : String → Option Nat)
  | download (fs : String → Option Nat)

/-- Apply one collection operation. -/
def ICOp.apply (ic : IndexCollection) : ICOp → IndexCollection
  | .add c a f => IndexCollection.Add ic c a f
  | .current fs => IndexCollection.DetermineCurrentTimestamps fs ic
  | .download fs => IndexCollection.DetermineDownloadTimestamps fs ic

/-- `SourceType`: Binary vs Source mirror. -/
inductive SourceType where
  | Bin
  | Src
  deriving DecidableEq, Repr

/-- `IndexType`: mode of the `__ProcessLine` scanner. -/
inductive IndexType where
  | Index
  | Release
  | Dep11
  deriving DecidableEq, Repr

/-- The parsed `Source` (one repository-description line). -/
structure Source where
  sourceType : SourceType
  architectures : List String
  uri : String
  distribution : String
  components : List String
  clean : Bool
  flatRepository : Bool
  indexCollection : IndexCollection
  deriving DecidableEq

/-- Modelled from the spec: the spec names the failure of constructing a
`Source` from a malformed description line `MalformedLineError`; in the
code the failure is the Python `IndexError` raised by an out-of-range
list access in `Source.__init__`. -/
abbrev MalformedLineError := String

/-- Inline-comment removal: `line = line[0:line.index("#")]` when the line
contains `#`. -/
def stripComment (line : String) : String :=
  if pyIn "#" line then String.mk (line.toList.takeWhile (fun c => c ≠ '#')) else line

/-- `elements = list(filter(None, line.split(" ")))` after comment removal. -/
def elementsOf (line : String) : List String :=
  (pySplit ' ' (stripComment line)).filter (fun s => s ≠ "")

/-- The field cursor: 1, advanced to 2 when a bracketed architecture
segment is present (`"[" in line and "]" in line`). -/
def elementIndexOf (line : String) : Nat :=
  if pyIn "[" (stripComment line) ∧ pyIn "]" (stripComment line) then 2 else 1

/-- `Source.__init__`: parse one configuration line with the default
architecture.  Out-of-range accesses (`elements[0]`,
`elements[elementIndex]`) surface as `.error`. -/
def Source.parse (line defaultArch : String) : Except MalformedLineError Source :=
  let stripped := stripComment line
  match elementsOf line with
  | [] => .error "IndexError: list index out of range"
  | e0 :: rest0 =>
    let sourceType :=
      if e0 = "deb" then SourceType.Bin
      else if pyIn "deb-src" e0 then SourceType.Src
      else SourceType.Bin
    let architectures :=
      if pyIn "[" stripped ∧ pyIn "]" stripped then
        let archList :=
          replaceAll "arch=" ""
            ((pySplit ']' ((pySplit '[' stripped).getD 1 "")).headD "")
        pySplit ',' archList
      else [defaultArch]
    let elements := e0 :: rest0
    let elementIndex := elementIndexOf line
    match elements.get? elementIndex with
    | none => .error "IndexError: list index out of range"
    | some uri =>
      if elements.length > elementIndex + 1 then
        let distribution := (elements.get? (elementIndex + 1)).getD ""
        let components := elements.drop (elementIndex + 2)
        .ok { sourceType := sourceType, architectures := architectures, uri := uri,
              distribution := distribution, components := components, clean := true,
              flatRepository := false,
              indexCollection := IndexCollection.init components architectures }
      else
        .ok { sourceType := sourceType, architectures := architectures, uri := uri,
              distribution := "", components := ["Flat"], clean := true,
              flatRepository := true,
              indexCollection := IndexCollection.init ["Flat"] architectures }

/-- `Source.GetIndexes`: expand the source into its metadata URL list and
register the package indexes into the owned collection, then run the
pre-pass timestamp capture.  `contents` is `Settings.Contents()`.

The URL list and the collection registrations are accumulated separately
here; the Python code interleaves `indexes.append` and
`self._indexCollection.Add`, but the two accumulators never interact, and
the element order of each is preserved.

The `components == []` branch is the source's `# Flat Repositories`
branch: it appends `<uri>/<distribution>/{InRelease,Release,Release.gpg}`
and the `Sources`/`Packages` compression variants to the local list, but
registering them indexes `self._components[0]`, which in this branch is
an access into an empty list: it raises IndexError before any state
change, so the whole call is modelled as `.error`. -/
def Source.GetIndexes (contents : Bool) (fs : String → Option Nat) (s : Source) :
    Except String (List String × Source) :=
  let baseUrl := s.uri ++ "/dists/" ++ s.distribution ++ "/"
  let compressionFormats := [".gz", ".bz2", ".xz"]
  match s.components with
  | [] => .error "IndexError: list index out of range"
  | c0 :: cs0 =>
    let headIndexes := [baseUrl ++ "InRelease", baseUrl ++ "Release", baseUrl ++ "Release.gpg"]
    match s.sourceType with
    | .Bin =>
      let contentsTop :=
        if contents then
          s.architectures.flatMap (fun architecture =>
            compressionFormats.map (fun f => baseUrl ++ "Contents-" ++ architecture ++ f))
        else []
      let perComponent := (c0 :: cs0).flatMap (fun component =>
        (s.architectures.flatMap (fun architecture =>
          (if contents then
             compressionFormats.map (fun f =>
               baseUrl ++ component ++ "/Contents-" ++ architecture ++ f)
           else [])
          ++ [baseUrl ++ component ++ "/binary-" ++ architecture ++ "/Release"]
          ++ compressionFormats.flatMap (fun f =>
            [baseUrl ++ component ++ "/binary-" ++ architecture ++ "/Packages" ++ f,
             baseUrl ++ component ++ "/cnf/Commands-" ++ architecture ++ f,
             baseUrl ++ component ++ "/i18n/cnf/Commands-" ++ architecture ++ f])))
        ++ [baseUrl ++ component ++ "/i18n/Index"])
      let coll := (c0 :: cs0).foldl (fun coll component =>
        s.architectures.foldl (fun coll2 architecture =>
          compressionFormats.foldl (fun coll3 f =>
            IndexCollection.Add coll3 component architecture
              (baseUrl ++ component ++ "/binary-" ++ architecture ++ "/Packages" ++ f))
            coll2) coll) s.indexCollection
      let coll := IndexCollection.DetermineCurrentTimestamps fs coll
      .ok (headIndexes ++ contentsTop ++ perComponent, { s with indexCollection := coll })
    | .Src =>
      match s.architectures with
      | [] =>
        -- the Sources registration indexes `self._architectures[0]`
        .error "IndexError: list index out of range"
      | a0 :: _ =>
        let perComponent := (c0 :: cs0).flatMap (fun component =>
          [baseUrl ++ component ++ "/source/Release"]
          ++ compressionFormats.map (fun f => baseUrl ++ component ++ "/source/Sources" ++ f))
        let coll := (c0 :: cs0).foldl (fun coll component =>
          compressionFormats.foldl (fun coll2 f =>
            IndexCollection.Add coll2 component a0
              (baseUrl ++ component ++ "/source/Sources" ++ f)) coll) s.indexCollection
        let coll := IndexCollection.DetermineCurrentTimestamps fs coll
        .ok (headIndexes ++ perComponent, { s with indexCollection := coll })

/-- State of the `__ProcessLine` checksum-block scanner: the `checksums`
flag and the last recorded checksum-type label.  (In Python the label
variable is simply unassigned before the first label line; since the flag
starts `False` and only a label line can set it, the label is always
assigned before it is read, and we initialise it to `""`.) -/
structure ScanState where
  checksums : Bool
  checksumType : String
  deriving DecidableEq, Repr

/-- The per-call parameters of `__ProcessLine`. -/
structure ScanCtx where
  architectures : List String
  byHash : Bool
  indexType : IndexType
  indexUri : String
  baseUri : String
  component : String
  deriving DecidableEq, Repr

/-- `"SHA256:" in line or "SHA1:" in line or "MD5Sum:" in line`. -/
def containsChecksumLabel (line : String) : Bool :=
  pyIn "SHA256:" line || pyIn "SHA1:" line || pyIn "MD5Sum:" line

/-- `line.replace(":", "").strip()` — the recorded checksum-type label. -/
def checksumLabelOf (line : String) : String :=
  pyStrip (String.mk (line.toList.filter (fun c => c ≠ ':')))

/-- `re.search("^ +(.*)$", line)`: the line starts with at least one space
(the rest, including the empty rest, always matches `(.*)$`). -/
def isIndented (line : String) : Bool := pyStartsWith line " "

/-- The filename filter of the Release branch:
`re.match(rf"{component}/i18n/Translation-[^./]*\.(gz|bz2|xz)$", filename)`
with the component taken literally. -/
def matchTranslation (component filename : String) : Bool :=
  let pre := component ++ "/i18n/Translation-"
  if pyStartsWith filename pre then
    let rest := filename.toList.drop pre.toList.length
    [".gz", ".bz2", ".xz"].any (fun ext =>
      lstarts ext.toList.reverse rest.reverse &&
      (rest.take (rest.length - ext.toList.length)).all (fun c => c ≠ '.' && c ≠ '/'))
  else false

/-- The filename filter of the Dep11 branch:
`re.match(rf"{component}/dep11/(Components-{arch}\.yml|icons-[^./]+\.tar)\.(gz|bz2|xz)$", filename)`
with component and architecture taken literally. -/
def matchDep11 (component arch filename : String) : Bool :=
  let pre := component ++ "/dep11/"
  if pyStartsWith filename pre then
    let rest := filename.toList.drop pre.toList.length
    [".gz", ".bz2", ".xz"].any (fun ext =>
      lstarts ext.toList.reverse rest.reverse &&
      (let core := rest.take (rest.length - ext.toList.length)
       core = ("Components-" ++ arch ++ ".yml").toList ||
       (lstarts "icons-".toList core &&
        lstarts ".tar".toList.reverse core.reverse &&
        (let mid := (core.drop 6).take (core.length - 10)
         mid ≠ [] && mid.all (fun c => c ≠ '.' && c ≠ '/')))))
  else false

/-- One line of `Source.__ProcessLine`.  The label variable is updated
first whenever the line contains a checksum-type label; then, inside a
block, an indented line is split on spaces into (checksum, size, filename)
— any other token count is logged and skipped — and outside a block the
flag is re-armed exactly when the line contains a label. -/
def processChecksumLine (ctx : ScanCtx) (st : ScanState × List String) (line : String) :
    ScanState × List String :=
  let ct := if containsChecksumLabel line then checksumLabelOf line else st.1.checksumType
  if st.1.checksums then
    if isIndented line then
      match (pySplit ' ' line).filter (fun s => s ≠ "") with
      | [p0, _p1, p2] =>
        let checksum := pyStrip p0
        let filename := pyRStrip p2
        let out :=
          match ctx.indexType with
          | .Release =>
            if matchTranslation ctx.component filename then
              st.2 ++ [ctx.indexUri ++ filename]
                ++ (if ctx.byHash then
                      [ctx.indexUri ++ ctx.component ++ "/i18n/by-hash/" ++ ct ++ "/" ++ checksum]
                    else [])
            else st.2
          | .Dep11 =>
            (st.2 ++ ctx.architectures.filterMap (fun arch =>
              if matchDep11 ctx.component arch filename then
                some (ctx.indexUri ++ filename)
              else none))
            ++ (if ctx.byHash then
                  [ctx.indexUri ++ ctx.component ++ "/dep11/by-hash/" ++ ct ++ "/" ++ checksum]
                else [])
          | .Index => st.2 ++ [ctx.baseUri ++ filename]
        (⟨true, ct⟩, out)
      | _ => (⟨true, ct⟩, st.2)
    else (⟨false, ct⟩, st.2)
  else (⟨containsChecksumLabel line, ct⟩, st.2)

/-- `Source.__ProcessLine` over the decoded lines of the index file. -/
def ProcessLine (ctx : ScanCtx) (lines : List String) : List String :=
  (lines.foldl (processChecksumLine ctx) (⟨false, ""⟩, [])).2

/-- `Source.GetDep11Files`: empty for Source mirrors; otherwise scan the
distribution Release file (given here as its decoded lines) in Dep11 mode
once per component.  `byHash` is `Settings.ByHash()`. -/
def Source.GetDep11Files (byHash : Bool) (releaseLines : List String) (s : Source) : List String :=
  if s.sourceType ≠ SourceType.Bin then []
  else
    let baseUrl := s.uri ++ "/dists/" ++ s.distribution ++ "/"
    s.components.flatMap (fun component =>
      ProcessLine ⟨s.architectures, byHash, .Dep11, baseUrl, "", component⟩ releaseLines)

/-- `Index.Read`: read the file, decode each raw line and right-strip it.
`readlines` on a byte string ending in a newline yields no trailing empty
line, hence the `dropLast`. -/
def Index.Read (contents : String) : List String :=
  let ls := pySplit '\n' contents
  let ls := if ls.getLast? = some "" then ls.dropLast else ls
  ls.map pyRStrip

/-- The fixed field whitelist of `Index.GetPackages`. -/
def keywords : List String :=
  ["Filename", "MD5sum", "SHA1", "SHA256", "Size", "Files", "Directory"]

/-- A character of the `[\w\-]` class (ASCII reading of `\w`). -/
def wordChar (c : Char) : Bool := c.isAlphanum || c = '_' || c = '-'

/-- `re.search(r"^([\w\-]+:)", line)`: a non-empty run of word characters
at the start of the line followed by a colon. -/
def isFieldLine (line : String) : Bool :=
  let pre := line.toList.takeWhile wordChar
  pre ≠ [] && (line.toList.drop pre.length).head? = some ':'

/-- State of the `Index.GetPackages` loop: flushed records, the record
being built, and the pending-key cursor. -/
structure PkgState where
  packages : List (List (String × String))
  package : List (String × String)
  key : Option String
  deriving DecidableEq, Repr

/-- One line of `Index.GetPackages`.  A blank line flushes the current
record (the cursor is left as is); a continuation line appends
`"\n" + line.strip()` to the pending key's value (a `KeyError` surfaces
as `.error` when the fresh record has no such key); otherwise the text
before the first colon is the candidate key: whitelisted keys store the
text between the first and second colon, stripped (`line.split(":")[1]`,
raising IndexError when the line has no colon at all), and any other
candidate clears the cursor. -/
def processPackageLine (st : PkgState) (line : String) : Except String PkgState :=
  if line = "" then
    .ok { st with packages := st.packages ++ [st.package], package := [] }
  else
    match st.key, isFieldLine line with
    | some k, false =>
      match st.package.lookup k with
      | some v => .ok { st with package := upsert k (v ++ "\n" ++ pyStrip line) st.package }
      | none => .error "KeyError"
    | _, _ =>
      let k := (pySplit ':' line).headD ""
      if k ∈ keywords then
        match (pySplit ':' line).get? 1 with
        | some v => .ok { st with package := upsert k (pyStrip v) st.package, key := some k }
        | none => .error "IndexError: list index out of range"
      else
        .ok { st with key := none }

/-- `Index.GetPackages` over the lines produced by `Index.Read`: records
are flushed only by blank lines; a final unflushed record is dropped. -/
def Index.GetPackages (lines : List String) : Except String (List (List (String × String))) := do
  let st ← lines.foldlM processPackageLine { packages := [], package := [], key := none }
  return st.packages

/-! Lemmas about the association-list operations. -/

theorem lookup_cons {α : Type} (q k : String) (v : α) (rest : List (String × α)) :
    List.lookup q ((k, v) :: rest) = if q = k then some v else List.lookup q rest := by
  by_cases h : q = k
  · subst h; simp [List.lookup]
  · have hb : (q == k) = false := beq_eq_false_iff_ne.mpr h
    simp [List.lookup, hb, h]

theorem lookup_upsert {α : Type} (k q : String) (v : α) (m : List (String × α)) :
    List.lookup q (upsert k v m) = if q = k then some v else List.lookup q m := by
  induction m with
  | nil => simp [upsert, lookup_cons]
  | cons p rest ih =>
    rcases p with ⟨k0, v0⟩
    by_cases h1 : k0 = k
    · subst h1
      by_cases h2 : q = k0 <;> simp [upsert, lookup_cons, h2]
    · by_cases h2 : q = k0
      · have h3 : ¬ q = k := fun hqk => h1 ((hqk ▸ h2).symm)
        simp [upsert, h1, lookup_cons, h2, h3]
      · simp [upsert, h1, lookup_cons, h2, ih]

theorem lookup_mapval {β γ : Type} (F : String → β → γ) (m : List (String × β)) (q : String) :
    List.lookup q (m.map (fun p => (p.1, F p.1 p.2))) = (List.lookup q m).map (F q) := by
  induction m with
  | nil => simp [List.lookup]
  | cons p rest ih =>
    rcases p with ⟨k0, v0⟩
    by_cases h : q = k0
    · subst h; simp [lookup_cons]
    · simp [lookup_cons, h, ih]

theorem declaredPair_some (c a : String) (ic : IndexCollection)
    (am : List (String × List (String × Timestamp)))
    (hm : List.lookup c ic = some am) :
    IndexCollection.declaredPair c a ic = (List.lookup a am).isSome := by
  unfold IndexCollection.declaredPair
  rw [hm]
  rfl

theorem declaredPair_of_true (c a : String) (ic : IndexCollection)
    (h : IndexCollection.declaredPair c a ic = true) :
    ∃ am, List.lookup c ic = some am ∧ (List.lookup a am).isSome = true := by
  unfold IndexCollection.declaredPair at h
  rcases hm : List.lookup c ic with _ | am
  · rw [hm] at h; cases h
  · rw [hm] at h; exact ⟨am, rfl, h⟩

theorem declaredPair_icDeclare_self (ic : IndexCollection) (c a : String) :
    IndexCollection.declaredPair c a (icDeclare ic c a) = true := by
  unfold IndexCollection.declaredPair icDeclare
  rw [lookup_upsert, if_pos rfl]
  show (List.lookup a (upsert a [] ((List.lookup c ic).getD []))).isSome = true
  rw [lookup_upsert, if_pos rfl]
  rfl

theorem declaredPair_icDeclare_mono (ic : IndexCollection) (c a c2 a2 : String)
    (h : IndexCollection.declaredPair c a ic = true) :
    IndexCollection.declaredPair c a (icDeclare ic c2 a2) = true := by
  obtain ⟨am, hm, ham⟩ := declaredPair_of_true c a ic h
  unfold IndexCollection.declaredPair icDeclare
  rw [lookup_upsert]
  by_cases hc : c = c2
  · subst hc
    rw [if_pos rfl]
    show (List.lookup a (upsert a2 [] ((List.lookup c ic).getD []))).isSome = true
    rw [lookup_upsert]
    by_cases ha : a = a2
    · rw [if_pos ha]; rfl
    · rw [if_neg ha, hm]; exact ham
  · rw [if_neg hc, hm]; exact ham

theorem declaredPair_Add_mono (ic : IndexCollection) (c a c2 a2 f : String)
    (h : IndexCollection.declaredPair c a ic = true) :
    IndexCollection.declaredPair c a (IndexCollection.Add ic c2 a2 f) = true := by
  obtain ⟨am, hm, ham⟩ := declaredPair_of_true c a ic h
  unfold IndexCollection.declaredPair IndexCollection.Add
  rw [lookup_upsert]
  by_cases hc : c = c2
  · subst hc
    rw [if_pos rfl]
    show (List.lookup a (upsert a2 _ ((List.lookup c ic).getD []))).isSome = true
    rw [lookup_upsert]
    by_cases ha : a = a2
    · rw [if_pos ha]; rfl
    · rw [if_neg ha, hm]; exact ham
  · rw [if_neg hc, hm]; exact ham

theorem lookup_DCT (fs : String → Option Nat) (ic : IndexCollection) (c : String) :
    List.lookup c (IndexCollection.DetermineCurrentTimestamps fs ic) =
      (List.lookup c ic).map (fun am => am.map (fun af => (af.1, af.2.map (currentStamp fs)))) := by
  unfold IndexCollection.DetermineCurrentTimestamps
  exact lookup_mapval (fun _ am => am.map (fun af => (af.1, af.2.map (currentStamp fs)))) ic c

theorem lookup_DDT (fs : String → Option Nat) (ic : IndexCollection) (c : String) :
    List.lookup c (IndexCollection.DetermineDownloadTimestamps fs ic) =
      (List.lookup c ic).map (fun am => am.map (fun af => (af.1, af.2.filterMap (downloadStamp fs)))) := by
  unfold IndexCollection.DetermineDownloadTimestamps
  exact lookup_mapval (fun _ am => am.map (fun af => (af.1, af.2.filterMap (downloadStamp fs)))) ic c

theorem lookup_mapStamp {γ : Type} (G : List (String × Timestamp) → γ)
    (am : List (String × List (String × Timestamp))) (a : String) :
    List.lookup a (am.map (fun af => (af.1, G af.2))) = (List.lookup a am).map G :=
  lookup_mapval (fun _ fm => G fm) am a

theorem declaredPair_current_mono (ic : IndexCollection) (c a : String)
    (fs : String → Option Nat) (h : IndexCollection.declaredPair c a ic = true) :
    IndexCollection.declaredPair c a (IndexCollection.DetermineCurrentTimestamps fs ic) = true := by
  obtain ⟨am, hm, ham⟩ := declaredPair_of_true c a ic h
  unfold IndexCollection.declaredPair
  rw [lookup_DCT, hm]
  show (List.lookup a (am.map _)).isSome = true
  rw [lookup_mapStamp]
  rcases hma : List.lookup a am with _ | fm
  · rw [hma] at ham; cases ham
  · rfl

theorem declaredPair_download_mono (ic : IndexCollection) (c a : String)
    (fs : String → Option Nat) (h : IndexCollection.declaredPair c a ic = true) :
    IndexCollection.declaredPair c a (IndexCollection.DetermineDownloadTimestamps fs ic) = true := by
  obtain ⟨am, hm, ham⟩ := declaredPair_of_true c a ic h
  unfold IndexCollection.declaredPair
  rw [lookup_DDT, hm]
  show (List.lookup a (am.map _)).isSome = true
  rw [lookup_mapStamp]
  rcases hma : List.lookup a am with _ | fm
  · rw [hma] at ham; cases ham
  · rfl

theorem declaredPair_op_mono (ic : IndexCollection) (c a : String) (op : ICOp)
    (h : IndexCollection.declaredPair c a ic = true) :
    IndexCollection.declaredPair c a (ICOp.apply ic op) = true := by
  cases op with
  | add c2 a2 f => exact declaredPair_Add_mono ic c a c2 a2 f h
  | current fs => exact declaredPair_current_mono ic c a fs h
  | download fs => exact declaredPair_download_mono ic c a fs h

theorem declaredPair_foldl_mono {β : Type} (c a : String)
    (g : IndexCollection → β → IndexCollection)
    (hg : ∀ ic b, IndexCollection.declaredPair c a ic = true →
      IndexCollection.declaredPair c a (g ic b) = true)
    (l : List β) (ic : IndexCollection)
    (h : IndexCollection.declaredPair c a ic = true) :
    IndexCollection.declaredPair c a (l.foldl g ic) = true := by
  induction l generalizing ic with
  | nil => simpa using h
  | cons b rest ih => exact ih (g ic b) (hg ic b h)

theorem declaredPair_archFold (ic : IndexCollection) (c a : String) (archs : List String)
    (ha : a ∈ archs) :
    IndexCollection.declaredPair c a
      (archs.foldl (fun ic2 architecture => icDeclare ic2 c architecture) ic) = true := by
  induction archs generalizing ic with
  | nil => cases ha
  | cons a0 rest ih =>
    simp only [List.foldl_cons]
    rcases List.mem_cons.mp ha with h | h
    · subst h
      exact declaredPair_foldl_mono c a _
        (fun ic2 b hb => declaredPair_icDeclare_mono ic2 c a c b hb) rest _
        (declaredPair_icDeclare_self ic c a)
    · exact ih (icDeclare ic c a0) h

theorem declaredPair_init (components architectures : List String) (c a : String)
    (hc : c ∈ components) (ha : a ∈ architectures) :
    IndexCollection.declaredPair c a (IndexCollection.init components architectures) = true := by
  unfold IndexCollection.init
  have main : ∀ (comps : List String) (ic : IndexCollection), c ∈ comps →
      IndexCollection.declaredPair c a
        (comps.foldl (fun ic2 component =>
          architectures.foldl (fun ic3 architecture => icDeclare ic3 component architecture) ic2)
          ic) = true := by
    intro comps
    induction comps with
    | nil => intro ic h; cases h
    | cons c0 rest ih =>
      intro ic h
      simp only [List.foldl_cons]
      rcases List.mem_cons.mp h with h0 | h0
      · subst h0
        exact declaredPair_foldl_mono c a _
          (fun ic2 c2 hb => declaredPair_foldl_mono c a _
            (fun ic3 a2 hb2 => declaredPair_icDeclare_mono ic3 c a c2 a2 hb2) architectures ic2 hb)
          rest _ (declaredPair_archFold ic c a architectures ha)
      · exact ih _ h0
  exact main components [] hc

theorem flatMapSnd_mapmap {α β : Type} (g : α → β) (am : List (String × List α)) :
    (am.map (fun af => (af.1, af.2.map g))).flatMap (fun af => af.2) =
      (am.flatMap (fun af => af.2)).map g := by
  induction am with
  | nil => rfl
  | cons af rest ih => simp only [List.map_cons, List.flatMap_cons, ih, List.map_append]

theorem flatMapSnd_mapfilterMap {α β : Type} (g : α → Option β) (am : List (String × List α)) :
    (am.map (fun af => (af.1, af.2.filterMap g))).flatMap (fun af => af.2) =
      (am.flatMap (fun af => af.2)).filterMap g := by
  induction am with
  | nil => rfl
  | cons af rest ih => simp only [List.map_cons, List.flatMap_cons, ih, List.filterMap_append]

theorem entries_DCT (fs : String → Option Nat) (ic : IndexCollection) :
    IndexCollection.entries (IndexCollection.DetermineCurrentTimestamps fs ic) =
      (IndexCollection.entries ic).map (currentStamp fs) := by
  unfold IndexCollection.entries IndexCollection.DetermineCurrentTimestamps
  induction ic with
  | nil => rfl
  | cons ca rest ih =>
    simp only [List.map_cons, List.flatMap_cons, ih, List.map_append, flatMapSnd_mapmap]

theorem entries_DDT (fs : String → Option Nat) (ic : IndexCollection) :
    IndexCollection.entries (IndexCollection.DetermineDownloadTimestamps fs ic) =
      (IndexCollection.entries ic).filterMap (downloadStamp fs) := by
  unfold IndexCollection.entries IndexCollection.DetermineDownloadTimestamps
  induction ic with
  | nil => rfl
  | cons ca rest ih =>
    simp only [List.map_cons, List.flatMap_cons, ih, List.filterMap_append,
      flatMapSnd_mapfilterMap]

/-! Claim theorems. -/

/-- C8: every (component, architecture) pair declared at construction of an
`IndexCollection` has an entry in the three-level structure (a key mapping
to a possibly empty file map), immediately after construction (the empty
operation sequence) and after any sequence of `Add`,
`DetermineCurrentTimestamps` and `DetermineDownloadTimestamps` operations,
including when the post-download pass removes every file of the pair. -/
theorem c8_declared_pairs_persist (components architectures : List String) (c a : String)
    (hc : c ∈ components) (ha : a ∈ architectures) (ops : List ICOp) :
    IndexCollection.declaredPair c a
      (ops.foldl ICOp.apply (IndexCollection.init components architectures)) = true :=
  declaredPair_foldl_mono c a ICOp.apply
    (fun ic op hb => declaredPair_op_mono ic c a op hb) ops _
    (declaredPair_init components architectures c a hc ha)

/-- Witness for C8: a declared pair survives an `Add` to a different pair
followed by a download pass that removes every file. -/
theorem c8_declared_pairs_persist_witness :
    IndexCollection.declaredPair "main" "amd64"
      (List.foldl ICOp.apply (IndexCollection.init ["main"] ["amd64"])
        [ICOp.add "main" "amd64" "f.gz", ICOp.current (fun _ => some 1),
         ICOp.download (fun _ => none)]) = true :=
  c8_declared_pairs_persist ["main"] ["amd64"] "main" "amd64" (by decide) (by decide) _

/-- C10: `UnmodifiedFiles` has no force check, so with the force setting
enabled a registered still-present file whose two timestamps are equal is
listed both in `UnmodifiedFiles` and in `Files` (which lists every file
under force): the two views are not disjoint. -/
theorem c10_unmodified_ignores_force (ic : IndexCollection) (f : String) (ts : Timestamp)
    (hmem : (f, ts) ∈ IndexCollection.entries ic) (heq : ts.current = ts.download) :
    splitextStem f ∈ IndexCollection.UnmodifiedFiles ic ∧
    splitextStem f ∈ IndexCollection.Files true ic := by
  constructor
  · unfold IndexCollection.UnmodifiedFiles
    rw [List.mem_dedup, List.mem_filterMap]
    exact ⟨(f, ts), hmem, by simp [Timestamp.Modified, heq]⟩
  · unfold IndexCollection.Files
    rw [List.mem_dedup, List.mem_filterMap]
    exact ⟨(f, ts), hmem, by simp⟩

/-- Witness for C10 at a one-entry collection with equal timestamps. -/
theorem c10_unmodified_ignores_force_witness :
    splitextStem "x.gz" ∈ IndexCollection.UnmodifiedFiles [("c", [("a", [("x.gz", ⟨3, 3⟩)])])] ∧
    splitextStem "x.gz" ∈ IndexCollection.Files true [("c", [("a", [("x.gz", ⟨3, 3⟩)])])] :=
  c10_unmodified_ignores_force [("c", [("a", [("x.gz", ⟨3, 3⟩)])])] "x.gz" ⟨3, 3⟩
    (by decide) rfl

theorem entries_post_pass (ic : IndexCollection) (fs1 fs2 : String → Option Nat)
    (g : String) (ts2 : Timestamp)
    (hg : (g, ts2) ∈ IndexCollection.entries
      (IndexCollection.DetermineDownloadTimestamps fs2
        (IndexCollection.DetermineCurrentTimestamps fs1 ic))) :
    ∃ ts0, (g, ts0) ∈ IndexCollection.entries ic ∧ (fs2 g).isSome = true ∧
      ts2 = { (if (fs1 g).isSome = true then
                 { ts0 with current := (fs1 (SanitiseUri g)).getD 0 } else ts0) with
              download := (fs2 (SanitiseUri g)).getD 0 } := by
  rw [entries_DDT, entries_DCT, List.mem_filterMap] at hg
  obtain ⟨p1, hp1mem, hp1⟩ := hg
  rw [List.mem_map] at hp1mem
  obtain ⟨p0, hp0, hp0eq⟩ := hp1mem
  rcases p0 with ⟨g0, ts0⟩
  subst hp0eq
  simp only [currentStamp, downloadStamp] at hp1
  by_cases hfs : (fs2 g0).isSome = true
  · rw [if_pos hfs] at hp1
    simp only [Option.some.injEq, Prod.mk.injEq] at hp1
    obtain ⟨rfl, rfl⟩ := hp1
    exact ⟨ts0, hp0, hfs, rfl⟩
  · rw [if_neg hfs] at hp1
    cases hp1

/-- C3 (amended): assume the force setting is off and that no other
registered file shares the extension-stripped name of `f`.  Then a
registered file present on disk before and after the download pass with
equal modification times never appears in the changed view `Files`, and a
registered file absent after the download pass appears in neither `Files`
(for any force setting) nor `UnmodifiedFiles`. -/
theorem c3_roundtrip_amended (ic : IndexCollection) (fs1 fs2 : String → Option Nat)
    (f : String) (t : Nat)
    (hsan : SanitiseUri f = f)
    (hreg : ∃ ts, (f, ts) ∈ IndexCollection.entries ic)
    (huniq : ∀ g ts2, (g, ts2) ∈ IndexCollection.entries ic →
      splitextStem g = splitextStem f → g = f) :
    (fs1 f = some t → fs2 f = some t →
      splitextStem f ∉ IndexCollection.Files false
        (IndexCollection.DetermineDownloadTimestamps fs2
          (IndexCollection.DetermineCurrentTimestamps fs1 ic))) ∧
    (fs2 f = none → ∀ force : Bool,
      splitextStem f ∉ IndexCollection.Files force
        (IndexCollection.DetermineDownloadTimestamps fs2
          (IndexCollection.DetermineCurrentTimestamps fs1 ic)) ∧
      splitextStem f ∉ IndexCollection.UnmodifiedFiles
        (IndexCollection.DetermineDownloadTimestamps fs2
          (IndexCollection.DetermineCurrentTimestamps fs1 ic))) := by
  constructor
  · intro h1 h2 hmem
    unfold IndexCollection.Files at hmem
    rw [List.mem_dedup, List.mem_filterMap] at hmem
    obtain ⟨⟨g, ts2⟩, hg, hcond⟩ := hmem
    have hcond2 : (ts2.Modified || false) = true ∧ splitextStem g = splitextStem f := by
      by_cases hb : (ts2.Modified || false) = true
      · rw [if_pos hb] at hcond; exact ⟨hb, Option.some.inj hcond⟩
      · rw [if_neg hb] at hcond; cases hcond
    obtain ⟨hb, hstem⟩ := hcond2
    obtain ⟨ts0, hp0, hfs, hts⟩ := entries_post_pass ic fs1 fs2 g ts2 hg
    have hgf : g = f := huniq g ts0 hp0 hstem
    subst hgf
    rw [hsan, h1, h2] at hts
    simp only [Option.isSome_some, Option.getD_some, if_true] at hts
    subst hts
    simp [Timestamp.Modified] at hb
  · intro h2 force
    constructor <;> intro hmem
    · unfold IndexCollection.Files at hmem
      rw [List.mem_dedup, List.mem_filterMap] at hmem
      obtain ⟨⟨g, ts2⟩, hg, hcond⟩ := hmem
      have hstem : splitextStem g = splitextStem f := by
        by_cases hb : (ts2.Modified || force) = true
        · rw [if_pos hb] at hcond; exact Option.some.inj hcond
        · rw [if_neg hb] at hcond; cases hcond
      obtain ⟨ts0, hp0, hfs, _⟩ := entries_post_pass ic fs1 fs2 g ts2 hg
      have hgf : g = f := huniq g ts0 hp0 hstem
      subst hgf
      rw [h2] at hfs
      cases hfs
    · unfold IndexCollection.UnmodifiedFiles at hmem
      rw [List.mem_dedup, List.mem_filterMap] at hmem
      obtain ⟨⟨g, ts2⟩, hg, hcond⟩ := hmem
      have hstem : splitextStem g = splitextStem f := by
        by_cases hb : ts2.Modified = true
        · rw [if_pos hb] at hcond; cases hcond
        · rw [if_neg hb] at hcond; exact Option.some.inj hcond
      obtain ⟨ts0, hp0, hfs, _⟩ := entries_post_pass ic fs1 fs2 g ts2 hg
      have hgf : g = f := huniq g ts0 hp0 hstem
      subst hgf
      rw [h2] at hfs
      cases hfs

/-- A manifest with two registered compression variants of the same stem. -/
def c3ic : IndexCollection :=
  IndexCollection.Add (IndexCollection.Add (IndexCollection.init ["c"] ["a"]) "c" "a" "x.gz")
    "c" "a" "x.xz"

/-- Pre-pass disk state: `x.gz` has mtime 5, `x.xz` has mtime 1. -/
def c3fs1 : String → Option Nat :=
  fun p => if p = "x.gz" then some 5 else if p = "x.xz" then some 1 else none

/-- Post-pass disk state: `x.gz` unchanged at mtime 5, `x.xz` now mtime 2. -/
def c3fs2 : String → Option Nat :=
  fun p => if p = "x.gz" then some 5 else if p = "x.xz" then some 2 else none

/-- Counterexample to C3 as stated: `x.gz` is registered and present both
before and after the pass with equal modification times, yet its
extension-stripped name appears in the changed view `Files` (with the
force setting off), because the sibling variant `x.xz` changed and the
views contain extension-stripped, de-duplicated names. -/
theorem c3_roundtrip_counterexample :
    (("x.gz", (⟨0, 0⟩ : Timestamp)) ∈ IndexCollection.entries c3ic) ∧
    c3fs1 "x.gz" = some 5 ∧ c3fs2 "x.gz" = some 5 ∧
    splitextStem "x.gz" ∈ IndexCollection.Files false
      (IndexCollection.DetermineDownloadTimestamps c3fs2
        (IndexCollection.DetermineCurrentTimestamps c3fs1 c3ic)) := by
  refine ⟨by decide, rfl, rfl, by decide⟩

/-- A one-file manifest for the amended-C3 witness. -/
def c3wic : IndexCollection := [("c", [("a", [("x.gz", ⟨0, 0⟩)])])]

/-- Disk state that holds `x.gz` at mtime 4. -/
def c3wfs : String → Option Nat := fun p => if p = "x.gz" then some 4 else none

theorem c3wic_uniq (f : String) (hf : f = "x.gz") : ∀ g ts2,
    (g, ts2) ∈ IndexCollection.entries c3wic → splitextStem g = splitextStem f → g = f := by
  intro g ts2 hmem _
  have h := List.mem_singleton.mp hmem
  exact hf ▸ congrArg Prod.fst h

/-- Witness for the amended C3 on a one-file manifest: present-and-equal
keeps it out of `Files`; absent-after keeps it out of both views. -/
theorem c3_roundtrip_amended_witness :
    splitextStem "x.gz" ∉ IndexCollection.Files false
      (IndexCollection.DetermineDownloadTimestamps c3wfs
        (IndexCollection.DetermineCurrentTimestamps c3wfs c3wic)) ∧
    (splitextStem "x.gz" ∉ IndexCollection.Files true
      (IndexCollection.DetermineDownloadTimestamps (fun _ => none)
        (IndexCollection.DetermineCurrentTimestamps c3wfs c3wic)) ∧
     splitextStem "x.gz" ∉ IndexCollection.UnmodifiedFiles
      (IndexCollection.DetermineDownloadTimestamps (fun _ => none)
        (IndexCollection.DetermineCurrentTimestamps c3wfs c3wic))) :=
  ⟨(c3_roundtrip_amended c3wic c3wfs c3wfs "x.gz" 4 (by decide)
      ⟨⟨0, 0⟩, by decide⟩ (c3wic_uniq "x.gz" rfl)).1 rfl rfl,
   (c3_roundtrip_amended c3wic c3wfs (fun _ => none) "x.gz" 0 (by decide)
      ⟨⟨0, 0⟩, by decide⟩ (c3wic_uniq "x.gz" rfl)).2 rfl true⟩

/-- C6: constructing a `Source` from a line with no fields after comment
stripping and whitespace filtering, or whose URI token is missing
(`elements` too short for the field cursor), fails with the error the spec
calls `MalformedLineError`; the failure is a value of the constructor
only, so a caller can skip the line and continue. -/
theorem c6_malformed_line (line defaultArch : String)
    (h : elementsOf line = [] ∨ (elementsOf line).length ≤ elementIndexOf line) :
    ∃ e, Source.parse line defaultArch = .error e := by
  rcases hel : elementsOf line with _ | ⟨e0, rest⟩
  · refine ⟨"IndexError: list index out of range", ?_⟩
    unfold Source.parse
    rw [hel]
  · rcases h with h | h
    · rw [hel] at h; cases h
    · rw [hel] at h
      refine ⟨"IndexError: list index out of range", ?_⟩
      unfold Source.parse
      simp only [hel]
      rw [List.get?_eq_none.mpr h]

/-- Witness for C6: the line `"deb"` has a kind token but no URI token. -/
theorem c6_malformed_line_witness :
    ∃ e, Source.parse "deb" "amd64" = .error e :=
  c6_malformed_line "deb" "amd64" (Or.inr (by decide))

/-- C7: whenever `GetIndexes` returns a URL list, calling it again on the
resulting source (no `Timestamp` call in between), with the same settings
and disk state, returns the same URL list: the list depends only on the
parse-time fields, which `GetIndexes` never changes. -/
theorem c7_getindexes_idempotent (contents : Bool) (fs : String → Option Nat) (s : Source)
    (urls : List String) (s2 : Source)
    (h : Source.GetIndexes contents fs s = .ok (urls, s2)) :
    ∃ s3, Source.GetIndexes contents fs s2 = .ok (urls, s3) := by
  obtain ⟨st, ar, uri, dist, comps, cl, fl, coll⟩ := s
  rcases comps with _ | ⟨c0, cs0⟩
  · simp only [Source.GetIndexes] at h
    exact Except.noConfusion h
  · cases st
    · simp only [Source.GetIndexes, Except.ok.injEq, Prod.mk.injEq] at h
      obtain ⟨rfl, rfl⟩ := h
      exact ⟨_, rfl⟩
    · rcases ar with _ | ⟨a0, as0⟩
      · simp only [Source.GetIndexes] at h
        exact Except.noConfusion h
      · simp only [Source.GetIndexes, Except.ok.injEq, Prod.mk.injEq] at h
        obtain ⟨rfl, rfl⟩ := h
        exact ⟨_, rfl⟩

/-- A small deb-src source for the C7 witness. -/
def c7src : Source :=
  ⟨.Src, ["amd64"], "u", "d", ["m"], true, false, [("m", [("amd64", [])])]⟩

/-- The URL list `GetIndexes` produces for `c7src`. -/
def c7urls : List String :=
  ["u/dists/d/InRelease", "u/dists/d/Release", "u/dists/d/Release.gpg",
   "u/dists/d/m/source/Release", "u/dists/d/m/source/Sources.gz",
   "u/dists/d/m/source/Sources.bz2", "u/dists/d/m/source/Sources.xz"]

/-- The source state after the first `GetIndexes` call on `c7src`. -/
def c7src2 : Source :=
  ⟨.Src, ["amd64"], "u", "d", ["m"], true, false,
   [("m", [("amd64",
     [("u/dists/d/m/source/Sources.gz", ⟨0, 0⟩),
      ("u/dists/d/m/source/Sources.bz2", ⟨0, 0⟩),
      ("u/dists/d/m/source/Sources.xz", ⟨0, 0⟩)])])]⟩

/-- Witness for C7: the second call on the updated source returns the same
URL list. -/
theorem c7_getindexes_idempotent_witness :
    ∃ s3, Source.GetIndexes false (fun _ => none) c7src2 = .ok (c7urls, s3) :=
  c7_getindexes_idempotent false (fun _ => none) c7src c7urls c7src2 (by decide)

/-- C4 (amended): inside a checksum block, a line that does not match the
leading-whitespace record pattern always transitions the scanner back to
the outside-block state — including a line bearing a checksum-type label,
whose label is still recorded but which does not immediately re-enter the
block; the inside-block state is re-entered exactly when a line containing
a checksum-type label is read while outside the block. -/
theorem c4_scanner_amended (ctx : ScanCtx) (st : ScanState) (acc : List String) (line : String) :
    ((st.checksums = true ∧ isIndented line = false) →
      (processChecksumLine ctx (st, acc) line).1.checksums = false ∧
      (containsChecksumLabel line = true →
        (processChecksumLine ctx (st, acc) line).1.checksumType = checksumLabelOf line)) ∧
    ((st.checksums = false ∧ containsChecksumLabel line = true) →
      (processChecksumLine ctx (st, acc) line).1.checksums = true ∧
      (processChecksumLine ctx (st, acc) line).1.checksumType = checksumLabelOf line) := by
  constructor
  · rintro ⟨h1, h2⟩
    refine ⟨by simp [processChecksumLine, h1, h2], fun h3 => ?_⟩
    simp [processChecksumLine, h1, h2, h3]
  · rintro ⟨h1, h2⟩
    exact ⟨by simp [processChecksumLine, h1, h2], by simp [processChecksumLine, h1, h2]⟩

/-- Witness for the amended C4: an indented record closes nothing, a bare
`SHA1:` line read inside a block leaves it, and a label read outside
re-enters. -/
theorem c4_scanner_amended_witness :
    ((processChecksumLine ⟨[], false, .Index, "I", "B/", ""⟩ (⟨true, "SHA256"⟩, []) "SHA1:").1.checksums
      = false ∧
     (processChecksumLine ⟨[], false, .Index, "I", "B/", ""⟩ (⟨true, "SHA256"⟩, []) "SHA1:").1.checksumType
      = checksumLabelOf "SHA1:") ∧
    (processChecksumLine ⟨[], false, .Index, "I", "B/", ""⟩ (⟨false, "SHA256"⟩, []) "SHA1:").1.checksums
      = true :=
  ⟨⟨((c4_scanner_amended ⟨[], false, .Index, "I", "B/", ""⟩ ⟨true, "SHA256"⟩ [] "SHA1:").1
      ⟨rfl, by decide⟩).1,
    ((c4_scanner_amended ⟨[], false, .Index, "I", "B/", ""⟩ ⟨true, "SHA256"⟩ [] "SHA1:").1
      ⟨rfl, by decide⟩).2 (by decide)⟩,
   ((c4_scanner_amended ⟨[], false, .Index, "I", "B/", ""⟩ ⟨false, "SHA256"⟩ [] "SHA1:").2
      ⟨rfl, by decide⟩).1⟩

/-- Counterexample to C4 as stated: after `SHA256:`, one record and a
consecutive `SHA1:` line, the scanner is OUTSIDE the block (the claim says
it immediately re-enters), and the indented record directly following the
`SHA1:` line is not processed. -/
theorem c4_scanner_counterexample :
    (List.foldl (processChecksumLine ⟨[], false, .Index, "I", "B/", ""⟩) (⟨false, ""⟩, [])
      ["SHA256:", " a 1 f", "SHA1:"]).1.checksums = false ∧
    ProcessLine ⟨[], false, .Index, "I", "B/", ""⟩ ["SHA256:", " a 1 f", "SHA1:", " b 2 g"]
      = ["B/f"] ∧
    "B/g" ∉ ProcessLine ⟨[], false, .Index, "I", "B/", ""⟩ ["SHA256:", " a 1 f", "SHA1:", " b 2 g"] :=
  ⟨by decide, by decide, by decide⟩

/-- C9: in the Dep11 branch, when by-hash mode is on, every well-formed
three-token record line read inside a checksum block emits the by-hash URL
— the emission is not conditioned on the dep11 filename filter — whereas
in the Release branch a line whose filename fails the translation filter
emits nothing at all. -/
theorem c9_dep11_byhash_unconditional (ctx : ScanCtx) (st : ScanState) (acc : List String)
    (line p0 p1 p2 : String)
    (hin : st.checksums = true) (hind : isIndented line = true)
    (hparts : (pySplit ' ' line).filter (fun s => s ≠ "") = [p0, p1, p2])
    (hhash : ctx.byHash = true) :
    (ctx.indexType = .Dep11 →
      (ctx.indexUri ++ ctx.component ++ "/dep11/by-hash/"
        ++ (if containsChecksumLabel line then checksumLabelOf line else st.checksumType)
        ++ "/" ++ pyStrip p0) ∈ (processChecksumLine ctx (st, acc) line).2) ∧
    (ctx.indexType = .Release → matchTranslation ctx.component (pyRStrip p2) = false →
      (processChecksumLine ctx (st, acc) line).2 = acc) := by
  simp only [ne_eq, decide_not] at hparts
  constructor
  · intro hty
    simp [processChecksumLine, hin, hind, hparts, hty, hhash]
  · intro hty hmatch
    simp [processChecksumLine, hin, hind, hparts, hty, hmatch]

/-- Witness for C9: the filename `weird.txt` matches no dep11 pattern, yet
the by-hash URL is emitted; in Release mode the same line emits nothing. -/
theorem c9_dep11_byhash_unconditional_witness :
    (("U/" : String) ++ "main" ++ "/dep11/by-hash/"
      ++ (if containsChecksumLabel " abc 10 weird.txt" then checksumLabelOf " abc 10 weird.txt"
          else "SHA256")
      ++ "/" ++ pyStrip "abc") ∈
      (processChecksumLine ⟨["amd64"], true, .Dep11, "U/", "", "main"⟩
        (⟨true, "SHA256"⟩, []) " abc 10 weird.txt").2 ∧
    (processChecksumLine ⟨["amd64"], true, .Release, "U/", "", "main"⟩
        (⟨true, "SHA256"⟩, []) " abc 10 weird.txt").2 = [] :=
  ⟨(c9_dep11_byhash_unconditional ⟨["amd64"], true, .Dep11, "U/", "", "main"⟩ ⟨true, "SHA256"⟩ []
      " abc 10 weird.txt" "abc" "10" "weird.txt" rfl (by decide) (by decide) rfl).1 rfl,
   (c9_dep11_byhash_unconditional ⟨["amd64"], true, .Release, "U/", "", "main"⟩ ⟨true, "SHA256"⟩ []
      " abc 10 weird.txt" "abc" "10" "weird.txt" rfl (by decide) (by decide) rfl).2 rfl (by decide)⟩

/-- C2: on the given two-stanza input without a trailing blank line,
`GetPackages` returns exactly ONE record — the final record is flushed
only by a blank line, so `{Filename: c/d.deb, Size: 200}` is dropped.
The claim (and the spec's testable property) expects two records; the
spec's own design notes flag this as a latent defect of the code. -/
theorem c2_drops_final_record :
    Index.GetPackages (Index.Read "Filename: a/b.deb\nSize: 100\n\nFilename: c/d.deb\nSize: 200\n")
      = .ok [[("Filename", "a/b.deb"), ("Size", "100")]] := by
  decide

/-! Lemmas about the character splitter, used by the C5 analysis. -/

theorem toList_append (a b : String) : (a ++ b).toList = a.toList ++ b.toList := rfl

theorem mk_toList (s : String) : String.mk s.toList = s := rfl

theorem splitCh_ne_nil (sep : Char) (l : List Char) : splitCh sep l ≠ [] := by
  cases l with
  | nil => simp [splitCh]
  | cons c cs =>
    by_cases h : c = sep
    · simp [splitCh, h]
    · simp only [splitCh, if_neg h]
      rcases hs : splitCh sep cs with _ | ⟨t, ts⟩ <;> simp

theorem splitCh_append_sep (sep : Char) (l1 l2 : List Char) (h : sep ∉ l1) :
    splitCh sep (l1 ++ sep :: l2) = l1 :: splitCh sep l2 := by
  induction l1 with
  | nil => simp [splitCh]
  | cons c cs ih =>
    have hc : ¬ c = sep := fun e => h (e ▸ List.mem_cons_self c cs)
    have hcs : sep ∉ cs := fun hm => h (List.mem_cons_of_mem c hm)
    simp [splitCh, hc, ih hcs]

theorem splitCh_head_takeWhile (sep : Char) (l : List Char) :
    (splitCh sep l).headD [] = l.takeWhile (fun c => c != sep) := by
  induction l with
  | nil => rfl
  | cons c cs ih =>
    by_cases h : c = sep
    · subst h
      simp [splitCh, List.takeWhile_cons]
    · simp only [splitCh, if_neg h]
      rcases hs : splitCh sep cs with _ | ⟨t, ts⟩
      · exact absurd hs (splitCh_ne_nil sep cs)
      · rw [hs] at ih
        simp only [List.headD] at ih
        simp [List.takeWhile_cons, bne, h, ih]

theorem takeWhile_of_no_sep (sep : Char) (l : List Char) (h : ∀ c ∈ l, c ≠ sep) :
    l.takeWhile (fun c => c != sep) = l := by
  induction l with
  | nil => rfl
  | cons c cs ih =>
    have hc := h c (List.mem_cons_self c cs)
    have hcs : ∀ g ∈ cs, g ≠ sep := fun g hg => h g (List.mem_cons_of_mem c hg)
    simpa [List.takeWhile_cons, hc] using hcs

theorem takeWhile_all_append {p : Char → Bool} (l1 l2 : List Char) (h : ∀ c ∈ l1, p c = true) :
    (l1 ++ l2).takeWhile p = l1 ++ l2.takeWhile p := by
  induction l1 with
  | nil => rfl
  | cons c cs ih =>
    simp [List.takeWhile_cons, h c (List.mem_cons_self c cs),
      ih (fun g hg => h g (List.mem_cons_of_mem c hg))]

/-- The computation of `processPackageLine` on a whitelisted field line. -/
theorem processPackageLine_field (st : PkgState) (line k v : String)
    (hne : line ≠ "") (hfl : isFieldLine line = true)
    (hhead : (pySplit ':' line).head?.getD "" = k) (hk : k ∈ keywords)
    (hget : (pySplit ':' line)[1]? = some v) :
    processPackageLine st line
      = .ok { st with package := upsert k (pyStrip v) st.package, key := some k } := by
  obtain ⟨pk, pp, pkey⟩ := st
  cases pkey <;>
    simp [processPackageLine, hne, hfl, hhead, hk, hget]

/-- C5 (amended): for a line `k ++ ":" ++ rest` whose field name `k` is a
non-empty run of word characters in the whitelist, the stored value is the
text between the first and the second colon of the line, stripped
(`line.split(":")[1].strip()`); this equals the whole text after the first
colon exactly when that text contains no further colon. -/
theorem c5_field_value_amended (st : PkgState) (k rest : String)
    (hk1 : k.toList ≠ []) (hk2 : ∀ c ∈ k.toList, wordChar c = true) (hk3 : k ∈ keywords) :
    ∃ st2, processPackageLine st (k ++ ":" ++ rest) = .ok st2 ∧
      st2.package.lookup k
        = some (pyStrip (String.mk (rest.toList.takeWhile (fun c => c != ':')))) ∧
      ((∀ c ∈ rest.toList, c ≠ ':') → st2.package.lookup k = some (pyStrip rest)) := by
  have hline : (k ++ ":" ++ rest).toList = k.toList ++ ':' :: rest.toList := by
    rw [toList_append, toList_append, List.append_assoc]
    rfl
  have hcolk : ∀ c ∈ k.toList, c ≠ ':' := by
    intro c hc e
    subst e
    exact absurd (hk2 ':' hc) (by decide)
  have hne : (k ++ ":" ++ rest) ≠ "" := by
    intro e
    have h0 : (k ++ ":" ++ rest).toList = [] := by rw [e]; decide
    rw [hline] at h0
    cases k.toList <;> simp_all
  have hsplit : pySplit ':' (k ++ ":" ++ rest)
      = k :: (splitCh ':' rest.toList).map String.mk := by
    unfold pySplit
    rw [hline, splitCh_append_sep ':' k.toList rest.toList (fun hm => hcolk ':' hm rfl)]
    simp [mk_toList]
  have hfl : isFieldLine (k ++ ":" ++ rest) = true := by
    simp only [isFieldLine, hline]
    rw [takeWhile_all_append k.toList (':' :: rest.toList) hk2]
    have h1 : (':' :: rest.toList).takeWhile wordChar = [] := by
      simp [List.takeWhile_cons, wordChar]
    rw [h1, List.append_nil, List.drop_left]
    simpa [String.toList] using hk1
  rcases hs : splitCh ':' rest.toList with _ | ⟨t, ts⟩
  · exact absurd hs (splitCh_ne_nil ':' rest.toList)
  · have hhead : (pySplit ':' (k ++ ":" ++ rest)).head?.getD "" = k := by rw [hsplit]; rfl
    have hget : (pySplit ':' (k ++ ":" ++ rest))[1]? = some (String.mk t) := by
      rw [hsplit, hs]
      simp
    have ht : t = rest.toList.takeWhile (fun c => c != ':') := by
      have := splitCh_head_takeWhile ':' rest.toList
      rw [hs] at this
      exact this
    refine ⟨{ st with package := upsert k (pyStrip (String.mk t)) st.package, key := some k },
      processPackageLine_field st (k ++ ":" ++ rest) k (String.mk t) hne hfl hhead hk3 hget,
      ?_, ?_⟩
    · show List.lookup k (upsert k (pyStrip (String.mk t)) st.package) = _
      rw [lookup_upsert, if_pos rfl, ht]
    · intro hnocol
      show List.lookup k (upsert k (pyStrip (String.mk t)) st.package) = _
      rw [lookup_upsert, if_pos rfl, ht, takeWhile_of_no_sep ':' rest.toList hnocol, mk_toList]

/-- Counterexample to C5 as stated: on the line `"Filename: a:b"` the
stored value is `"a"` (the text between the first and second colon), while
the entire text after the first colon, trimmed, is `"a:b"`. -/
theorem c5_field_value_counterexample :
    (processPackageLine ⟨[], [], none⟩ "Filename: a:b").map (fun st => st.package.lookup "Filename")
      = .ok (some "a") ∧
    pyStrip (String.mk ("Filename: a:b".toList.drop "Filename:".toList.length)) = "a:b" ∧
    ("a" : String) ≠ "a:b" :=
  ⟨by decide, by decide, by decide⟩

/-- Witness for the amended C5 on `"Size: 10:20"`: the stored value is
`"10"`. -/
theorem c5_field_value_amended_witness :
    ∃ st2, processPackageLine ⟨[], [], none⟩ ("Size" ++ ":" ++ " 10:20") = .ok st2 ∧
      st2.package.lookup "Size"
        = some (pyStrip (String.mk (" 10:20".toList.takeWhile (fun c => c != ':')))) ∧
      ((∀ c ∈ " 10:20".toList, c ≠ ':') → st2.package.lookup "Size" = some (pyStrip " 10:20")) :=
  c5_field_value_amended ⟨[], [], none⟩ "Size" " 10:20" (by decide) (by decide) (by decide)

/-- A flat repository-description line: kind and URI only. -/
def c1line : String := "deb http://a"

/-- The source parsed from `c1line` with default architecture amd64. -/
def c1src : Source :=
  ⟨.Bin, ["amd64"], "http://a", "", ["Flat"], true, true, [("Flat", [("amd64", [])])]⟩

/-- The URL list `GetIndexes` actually produces for the flat source: the
non-flat `dists` template with an empty distribution. -/
def c1urls : List String :=
  ["http://a/dists//InRelease", "http://a/dists//Release", "http://a/dists//Release.gpg",
   "http://a/dists//Flat/binary-amd64/Release",
   "http://a/dists//Flat/binary-amd64/Packages.gz",
   "http://a/dists//Flat/cnf/Commands-amd64.gz",
   "http://a/dists//Flat/i18n/cnf/Commands-amd64.gz",
   "http://a/dists//Flat/binary-amd64/Packages.bz2",
   "http://a/dists//Flat/cnf/Commands-amd64.bz2",
   "http://a/dists//Flat/i18n/cnf/Commands-amd64.bz2",
   "http://a/dists//Flat/binary-amd64/Packages.xz",
   "http://a/dists//Flat/cnf/Commands-amd64.xz",
   "http://a/dists//Flat/i18n/cnf/Commands-amd64.xz",
   "http://a/dists//Flat/i18n/Index"]

/-- C1 (code behaviour at the failing input): the line `"deb http://a"`
parses to a flat source (`flatRepository`, `components == ["Flat"]`), yet
`GetIndexes` expands it through the NON-flat `dists` template — because
`["Flat"]` is a non-empty list, the flat branch is never taken — producing
`<uri>/dists//...` URLs, registering `dists`-nested `Packages` variants
into the manifest, and not producing the flat-template
`<uri>//InRelease`. -/
theorem c1_flat_uses_dists_nesting :
    Source.parse c1line "amd64" = .ok c1src ∧
    c1src.flatRepository = true ∧ c1src.components = ["Flat"] ∧
    (Source.GetIndexes false (fun _ => none) c1src).map (fun r => r.1) = .ok c1urls ∧
    c1urls.head? = some "http://a/dists//InRelease" ∧
    "http://a//InRelease" ∉ c1urls ∧
    (Source.GetIndexes false (fun _ => none) c1src).map
        (fun r => r.2.indexCollection.entries.map (fun ft => ft.1))
      = .ok ["a/dists//Flat/binary-amd64/Packages.gz",
             "a/dists//Flat/binary-amd64/Packages.bz2",
             "a/dists//Flat/binary-amd64/Packages.xz"] :=
  ⟨by decide, rfl, rfl, by decide, rfl, by decide, by decide⟩

end Refrapt
